import Mathlib

/-!
Shallow embedding of `mdbook-citeproc` (src/main.rs), an mdbook preprocessor
that pipes every chapter of a book through the external `pandoc` binary.

Modelling conventions:
* TOML values from the host config are modelled by `TomlValue`: the adapter
  only ever distinguishes string values (via `Value::as_str`) from everything
  else, so a single `nonStr` constructor stands for all non-string values.
* The preprocessor's config table (`toml::value::Table`) is an association
  list with unique keys; `Table.get` is `table.get(key)`.
* Rust `panic!` / `.expect(...)` aborts the process; it is modelled as the
  `.error` side of `Except String` carrying the panic message, kept distinct
  from the `Result<Book, Error>` value the function would *return*
  (`RunOutcome.returned`).
* The external `pandoc` process is an oracle: for given argument list and
  piped input it yields whether spawn / stdin-acquisition / write / wait
  succeed, an exit status, and the raw bytes written to stdout.
* `String::from_utf8_lossy` is modelled byte-for-byte after Rust's UTF-8
  validation (maximal-subpart replacement with U+FFFD).
-/

/-- A TOML value as far as this adapter can observe it: `Value::as_str`
returns `some` exactly on string values. -/
inductive TomlValue where
  | str (s : String)
  | nonStr
  deriving DecidableEq, Repr

/-- Rust `toml::Value::as_str`. -/
def TomlValue.as_str : TomlValue → Option String
  | .str s => some s
  | .nonStr => none

/-- The preprocessor's config table (`toml::value::Table`): keyed TOML values. -/
abbrev Table := List (String × TomlValue)

/-- Rust `table.get(key)` (first binding wins; real TOML tables have unique keys). -/
def Table.get (t : Table) (k : String) : Option TomlValue :=
  (t.find? (fun p => p.1 == k)).map (·.2)

/-- `enum PandocSetting { Preserve, Transpile }` from src/main.rs:72-76. -/
inductive PandocSetting where
  | Preserve
  | Transpile
  deriving DecidableEq, Repr

/-- `impl Default for PandocSetting` (src/main.rs:78-82). -/
def PandocSetting.default : PandocSetting := .Preserve

/-- `struct BibliographyConfig` (src/main.rs:84-88). -/
structure BibliographyConfig where
  bibliography : String
  bibliography_style : String
  deriving DecidableEq, Repr

/-- `BibliographyConfig::new` (src/main.rs:90-97). -/
def BibliographyConfig.new (bibliography bibliography_style : String) :
    BibliographyConfig :=
  { bibliography := bibliography, bibliography_style := bibliography_style }

/-- `type PandocConfig = HashMap<String, PandocSetting>` (src/main.rs:100),
as an association list. -/
abbrev PandocConfig := List (String × PandocSetting)

/-- `config.get(setting)` on the `PandocConfig` hash map. -/
def PandocConfig.get (c : PandocConfig) (k : String) : Option PandocSetting :=
  (c.find? (fun p => p.1 == k)).map (·.2)

/-- The `get_mut`-or-`insert` update of src/main.rs:155-159: replace the
binding when the key is present, insert it otherwise. -/
def PandocConfig.upsert (c : PandocConfig) (k : String) (v : PandocSetting) :
    PandocConfig :=
  match c with
  | [] => [(k, v)]
  | (k', v') :: rest =>
    if k' == k then (k, v) :: rest else (k', v') :: PandocConfig.upsert rest k v

/-- The state threaded through the `parse_setting` closure of
src/main.rs:135-161: the growing `from` / `to` flag strings and the
`PandocConfig` map. -/
structure ParseState where
  fromStr : String
  toStr : String
  config : PandocConfig
  deriving DecidableEq, Repr

/-- The seed state of src/main.rs:127-130: empty config,
`from = "--from=markdown_strict"`, `to = "--to=markdown_strict"`. -/
def initState : ParseState :=
  { fromStr := "--from=markdown_strict", toStr := "--to=markdown_strict",
    config := [] }

/-- The `parse_setting` closure (src/main.rs:135-161). A key absent from the
table does nothing; a present key appends `+<setting>` to `from`
unconditionally, then branches on `as_str`: `"transpile"` appends
`-<setting>` to `to`; `"preserve"` or a non-string value appends
`+<setting>`; any other string panics. -/
def parse_setting (table : Table) (setting : String) (st : ParseState) :
    Except String ParseState :=
  match Table.get table setting with
  | none => .ok st
  | some option =>
    let fromStr := st.fromStr ++ "+" ++ setting
    match option.as_str with
    | some "transpile" =>
      .ok { fromStr := fromStr, toStr := st.toStr ++ "-" ++ setting,
            config := st.config.upsert setting .Transpile }
    | some "preserve" =>
      .ok { fromStr := fromStr, toStr := st.toStr ++ "+" ++ setting,
            config := st.config.upsert setting .Preserve }
    | none =>
      .ok { fromStr := fromStr, toStr := st.toStr ++ "+" ++ setting,
            config := st.config.upsert setting PandocSetting.default }
    | some _ =>
      .error (setting ++ " must be either \"transpile\" or \"preserve\"")

/-- The fixed feature enumeration, in the order of the fourteen
`parse_setting` calls at src/main.rs:163-176. -/
def featureNames : List String :=
  ["backtick_code_blocks", "bracketed_spans", "citations", "definition_lists",
   "emoji", "fenced_code_attributes", "fenced_code_blocks", "fenced_divs",
   "footnotes", "hard_line_breaks", "inline_notes", "mark",
   "markdown_in_html_blocks", "link_attributes"]

/-- The sequential run of `parse_setting` over a list of feature names
(src/main.rs:163-176 is `compileSettings table featureNames initState`);
a panic in any call aborts the sequence. -/
def compileSettings (table : Table) : List String → ParseState →
    Except String ParseState
  | [], st => .ok st
  | n :: rest, st =>
    match parse_setting table n st with
    | .error e => .error e
    | .ok st' => compileSettings table rest st'

/-- The bibliography gate (src/main.rs:181-195): if the resolved mode of
`"citations"` is `Transpile`, both `"bibliography-style"` and
`"bibliography"` must be present in the raw table as strings, else panic;
otherwise no `BibliographyConfig` is produced. -/
def bibGate (table : Table) (config : PandocConfig) :
    Except String (Option BibliographyConfig) :=
  match config.get "citations" with
  | some .Transpile =>
    match (Table.get table "bibliography-style").bind TomlValue.as_str,
          (Table.get table "bibliography").bind TomlValue.as_str with
    | some bib_style, some bib =>
      .ok (some (BibliographyConfig.new bib bib_style))
    | _, _ =>
      .error "citations set to transpile so bibliography-style and bibliography option must be provided!"
  | _ => .ok none

example : compileSettings [("citations", .str "transpile")] featureNames initState =
    .ok { fromStr := "--from=markdown_strict+citations",
          toStr := "--to=markdown_strict-citations",
          config := [("citations", .Transpile)] } := by
  rfl

/-! ## `String::from_utf8_lossy` (src/main.rs:229-231)

Modelled after Rust's UTF-8 validation: each maximal subpart of an
ill-formed sequence is replaced by one U+FFFD, where an invalid lead or an
invalid second byte consumes one byte, a failure at the third (resp. fourth)
byte consumes the two (resp. three) bytes already validated, and a sequence
truncated by end of input yields a single U+FFFD. -/

/-- The replacement character U+FFFD. -/
def replChar : Char := Char.ofNat 0xFFFD

/-- A UTF-8 continuation byte: `0x80 ≤ b ≤ 0xBF`. -/
def isCont (b : Nat) : Bool := 0x80 ≤ b && b ≤ 0xBF

/-- Valid second byte of a three-byte sequence led by `b0` (Rust's
`utf8-char-width` table: `E0` narrows to `A0..BF`, `ED` to `80..9F`). -/
def valid3Second (b0 b1 : Nat) : Bool :=
  if b0 == 0xE0 then 0xA0 ≤ b1 && b1 ≤ 0xBF
  else if b0 == 0xED then 0x80 ≤ b1 && b1 ≤ 0x9F
  else isCont b1

/-- Valid second byte of a four-byte sequence led by `b0` (`F0` narrows to
`90..BF`, `F4` to `80..8F`). -/
def valid4Second (b0 b1 : Nat) : Bool :=
  if b0 == 0xF0 then 0x90 ≤ b1 && b1 ≤ 0xBF
  else if b0 == 0xF4 then 0x80 ≤ b1 && b1 ≤ 0x8F
  else isCont b1

/-- Rust's lossy UTF-8 decoding, on bytes as naturals. -/
def utf8LossyAux : List Nat → List Char
  | [] => []
  | b0 :: rest =>
    if b0 < 0x80 then Char.ofNat b0 :: utf8LossyAux rest
    else if b0 < 0xC2 then replChar :: utf8LossyAux rest
    else if b0 < 0xE0 then
      match rest with
      | [] => [replChar]
      | b1 :: rest1 =>
        if isCont b1 then
          Char.ofNat ((b0 - 0xC0) * 64 + (b1 - 0x80)) :: utf8LossyAux rest1
        else replChar :: utf8LossyAux (b1 :: rest1)
    else if b0 < 0xF0 then
      match rest with
      | [] => [replChar]
      | b1 :: rest1 =>
        if valid3Second b0 b1 then
          match rest1 with
          | [] => [replChar]
          | b2 :: rest2 =>
            if isCont b2 then
              Char.ofNat ((b0 - 0xE0) * 4096 + (b1 - 0x80) * 64 + (b2 - 0x80)) ::
                utf8LossyAux rest2
            else replChar :: utf8LossyAux (b2 :: rest2)
        else replChar :: utf8LossyAux (b1 :: rest1)
    else if b0 < 0xF5 then
      match rest with
      | [] => [replChar]
      | b1 :: rest1 =>
        if valid4Second b0 b1 then
          match rest1 with
          | [] => [replChar]
          | b2 :: rest2 =>
            if isCont b2 then
              match rest2 with
              | [] => [replChar]
              | b3 :: rest3 =>
                if isCont b3 then
                  Char.ofNat ((b0 - 0xF0) * 262144 + (b1 - 0x80) * 4096 +
                      (b2 - 0x80) * 64 + (b3 - 0x80)) :: utf8LossyAux rest3
                else replChar :: utf8LossyAux (b3 :: rest3)
            else replChar :: utf8LossyAux (b2 :: rest2)
        else replChar :: utf8LossyAux (b1 :: rest1)
    else replChar :: utf8LossyAux rest

/-- `String::from_utf8_lossy(bytes).to_string()`. -/
def utf8Lossy (l : List Nat) : String := String.mk (utf8LossyAux l)

example : utf8Lossy [0x41, 0xFF, 0x42] = String.mk ['A', replChar, 'B'] := by rfl
example : utf8Lossy [0xE2, 0x82, 0xAC] = "€" := by rfl
example : utf8Lossy [0xE2, 0x82] = String.mk [replChar] := by rfl

/-! ## The book tree and the external converter

`mdbook::book::Book` / `BookItem` are collaborator types: a book is a list
of items, where a `Chapter` carries textual content and nested sub-items and
the other variants (`Separator`, `PartTitle`) carry no convertible content.
They are modelled as a mutual inductive pair (`BookItems` is isomorphic to
`List BookItem`; the mutual form gives clean structural recursion).

Modelled from the spec: `Book.for_each_mut`, the host-library traversal, is
not part of src/; per the spec it visits every node of the tree depth-first,
in order, yielding each node to the closure of src/main.rs:200-233. -/

mutual
/-- A node of the book tree. -/
inductive BookItem where
  | Chapter (content : String) (subItems : BookItems)
  | Separator
  | PartTitle (title : String)
  deriving DecidableEq, Repr

/-- A list of book nodes (the sections of a book or of a chapter). -/
inductive BookItems where
  | nil
  | cons (head : BookItem) (tail : BookItems)
  deriving DecidableEq, Repr
end

/-- `mdbook::book::Book`: the tree's top-level sections. -/
structure Book where
  sections : BookItems
  deriving DecidableEq, Repr

/-- What one spawned `pandoc` subprocess does: whether `spawn()`, taking
`stdin`, `write_all`, and `wait_with_output()` succeed, plus the exit
status and the bytes it wrote to stdout. -/
structure SpawnResult where
  spawnOk : Bool
  stdinOk : Bool
  writeOk : Bool
  waitOk : Bool
  status : Int
  stdout : List Nat
  deriving DecidableEq, Repr

/-- The external converter as an oracle: argument list and piped input
determine the subprocess's behaviour for this run. -/
abbrev Oracle := List String → String → SpawnResult

/-- One invocation of the external converter: the argument list it was
spawned with and the chapter content piped to its stdin. -/
structure PandocCall where
  args : List String
  input : String
  deriving DecidableEq, Repr

/-- The argument list assembled at src/main.rs:205-216: `from`, `to`, and,
only when a `BibliographyConfig` is present, the five citation arguments in
order. -/
def pandocArgs (fromStr toStr : String) (bib : Option BibliographyConfig) :
    List String :=
  [fromStr, toStr] ++
    match bib with
    | some b =>
      ["--csl=" ++ b.bibliography_style, "--bibliography=" ++ b.bibliography,
       "--metadata=link-citations", "--metadata=link-bibliography",
       "--citeproc"]
    | none => []

mutual
/-- The per-item closure of src/main.rs:200-233 combined with the
depth-first traversal: a `Chapter` spawns the converter with the fixed
`args`, pipes its content in, replaces the content by the lossy decoding of
the captured stdout, and recurses into its sub-items; `Separator` and
`PartTitle` are untouched.  Returns the calls made (in order) and either
the rewritten item or the message of the panic that aborted the run.
(The guard on `res` at src/main.rs:201 is statically dead: `res` is `None`
at src/main.rs:126 and never assigned, so it is not modelled.) -/
def processItem (oracle : Oracle) (args : List String) :
    BookItem → List PandocCall × Except String BookItem
  | .Chapter content subItems =>
    let r := oracle args content
    if r.spawnOk = false then ([], .error "failed to spawn process")
    else if r.stdinOk = false then
      ([⟨args, content⟩], .error "failed to open pandoc stdin")
    else if r.writeOk = false then
      ([⟨args, content⟩], .error "failed to write to pandoc stdin")
    else if r.waitOk = false then
      ([⟨args, content⟩], .error "failed to wait on pandoc")
    else
      match processItems oracle args subItems with
      | (calls, .error e) => (⟨args, content⟩ :: calls, .error e)
      | (calls, .ok subItems') =>
        (⟨args, content⟩ :: calls, .ok (.Chapter (utf8Lossy r.stdout) subItems'))
  | .Separator => ([], .ok .Separator)
  | .PartTitle t => ([], .ok (.PartTitle t))

/-- The traversal over a list of sibling nodes, in order, aborting at the
first panic. -/
def processItems (oracle : Oracle) (args : List String) :
    BookItems → List PandocCall × Except String BookItems
  | .nil => ([], .ok .nil)
  | .cons item rest =>
    match processItem oracle args item with
    | (calls, .error e) => (calls, .error e)
    | (calls, .ok item') =>
      match processItems oracle args rest with
      | (calls', .error e) => (calls ++ calls', .error e)
      | (calls', .ok rest') => (calls ++ calls', .ok (.cons item' rest'))
end

/-- The observable outcome of `Pandoc::run` (src/main.rs:125-236): either
the process panicked with a message, or the function returned a
`Result<Book, Error>` value; both record the converter invocations made. -/
inductive RunOutcome where
  | panicked (msg : String) (calls : List PandocCall)
  | returned (result : Except String Book) (calls : List PandocCall)
  deriving Repr

/-- `Pandoc::run` (src/main.rs:125-236). `tableOpt` is
`ctx.config.get_preprocessor("citeproc")`; `oracle` stands for the external
`pandoc` binary. -/
def Pandoc.run (tableOpt : Option Table) (book : Book) (oracle : Oracle) :
    RunOutcome :=
  match tableOpt with
  | none => .panicked "No config table for citeproc preprocessor" []
  | some table =>
    match compileSettings table featureNames initState with
    | .error e => .panicked e []
    | .ok st =>
      match bibGate table st.config with
      | .error e => .panicked e []
      | .ok bib =>
        let args := pandocArgs st.fromStr st.toStr bib
        match processItems oracle args book.sections with
        | (calls, .error e) => .panicked e calls
        | (calls, .ok sections') => .returned (.ok ⟨sections'⟩) calls

/-- `Pandoc::supports_renderer` (src/main.rs:238-240). -/
def supports_renderer (renderer : String) : Bool :=
  renderer != "not-supported"

/-- `handle_supports` (src/main.rs:58-70): exit code 0 when the renderer is
supported, 1 otherwise. -/
def handle_supports_exit (renderer : String) : Nat :=
  if supports_renderer renderer then 0 else 1

/-! ## Spec-side flag description (for the refinement claim about
`from` / `to`) -/

/-- The mode a present config value resolves to, or `none` when the value
is an invalid string: `"transpile"` is Transpile, `"preserve"` and every
non-string value are Preserve. -/
def valueMode (v : TomlValue) : Option PandocSetting :=
  match v.as_str with
  | some "transpile" => some .Transpile
  | some "preserve" => some .Preserve
  | none => some .Preserve
  | some _ => none

/-- Spec description: the `from` fragment of one feature name — `+<name>`
whenever the name is present in the config table, regardless of mode, and
nothing when it is absent. -/
def specFromFrag (table : Table) (n : String) : String :=
  match Table.get table n with
  | some _ => "+" ++ n
  | none => ""

/-- Spec description: the `to` fragment of one feature name — `+<name>` when
its resolved mode is Preserve, `-<name>` when it is Transpile, and nothing
when the name is absent (an invalid value never reaches flag compilation). -/
def specToFrag (table : Table) (n : String) : String :=
  match (Table.get table n).bind valueMode with
  | some .Preserve => "+" ++ n
  | some .Transpile => "-" ++ n
  | none => ""

/-- Concatenation of per-feature fragments in enumeration order. -/
def fragConcat (f : String → String) : List String → String
  | [] => ""
  | n :: rest => f n ++ fragConcat f rest

/-! ## Tree measurements (for the frame claim) -/

mutual
/-- Number of `Chapter` nodes in an item. -/
def countChaptersItem : BookItem → Nat
  | .Chapter _ subs => 1 + countChaptersList subs
  | .Separator => 0
  | .PartTitle _ => 0

/-- Number of `Chapter` nodes in a list of items. -/
def countChaptersList : BookItems → Nat
  | .nil => 0
  | .cons i rest => countChaptersItem i + countChaptersList rest
end

mutual
/-- The chapter contents of an item, in depth-first order. -/
def chapterContentsItem : BookItem → List String
  | .Chapter c subs => c :: chapterContentsList subs
  | .Separator => []
  | .PartTitle _ => []

/-- The chapter contents of a list of items, in depth-first order. -/
def chapterContentsList : BookItems → List String
  | .nil => []
  | .cons i rest => chapterContentsItem i ++ chapterContentsList rest
end

mutual
/-- Erase every chapter's content, keeping everything else: two trees with
equal `stripItem` images have the same shape, the same node ordering and
byte-for-byte equal non-chapter nodes. -/
def stripItem : BookItem → BookItem
  | .Chapter _ subs => .Chapter "" (stripList subs)
  | .Separator => .Separator
  | .PartTitle t => .PartTitle t

/-- `stripItem` over a list of items. -/
def stripList : BookItems → BookItems
  | .nil => .nil
  | .cons i rest => .cons (stripItem i) (stripList rest)
end

mutual
/-- The non-chapter nodes of an item, in depth-first order. -/
def nonChaptersItem : BookItem → List BookItem
  | .Chapter _ subs => nonChaptersList subs
  | .Separator => [.Separator]
  | .PartTitle t => [.PartTitle t]

/-- The non-chapter nodes of a list of items, in depth-first order. -/
def nonChaptersList : BookItems → List BookItem
  | .nil => []
  | .cons i rest => nonChaptersItem i ++ nonChaptersList rest
end

/-- Override an oracle's exit status, leaving everything else unchanged
(used to state that the run never consults the exit status). -/
def setStatus (o : Oracle) (f : List String → String → Int) : Oracle :=
  fun args input => { o args input with status := f args input }

/-- The converter invocations recorded by a run outcome. -/
def runCalls : RunOutcome → List PandocCall
  | .panicked _ calls => calls
  | .returned _ calls => calls

/-- The table maps feature `n` to a string that is neither `"transpile"`
nor `"preserve"` — the input the spec calls an invalid feature mode value. -/
def invalidAt (table : Table) (n : String) : Prop :=
  ∃ s, Table.get table n = some (.str s) ∧ s ≠ "transpile" ∧ s ≠ "preserve"

/-! ## Lemmas about the config map -/

theorem PandocConfig.get_upsert_self (c : PandocConfig) (k : String)
    (v : PandocSetting) : (c.upsert k v).get k = some v := by
  induction c with
  | nil => simp [PandocConfig.upsert, PandocConfig.get]
  | cons p rest ih =>
    obtain ⟨k', v'⟩ := p
    by_cases h : k' = k
    · simp [PandocConfig.upsert, h, PandocConfig.get]
    · simpa [PandocConfig.upsert, h, PandocConfig.get] using ih

theorem PandocConfig.get_upsert_ne (c : PandocConfig) (k n : String)
    (v : PandocSetting) (hne : n ≠ k) : (c.upsert k v).get n = c.get n := by
  induction c with
  | nil => simp [PandocConfig.upsert, PandocConfig.get, Ne.symm hne]
  | cons p rest ih =>
    obtain ⟨k', v'⟩ := p
    by_cases h : k' = k
    · subst h
      simp [PandocConfig.upsert, PandocConfig.get, Ne.symm hne]
    · by_cases h2 : k' = n
      · subst h2
        simp [PandocConfig.upsert, h, PandocConfig.get]
      · simpa [PandocConfig.upsert, h, PandocConfig.get, h2] using ih

/-! ## Characterisation of the settings fold -/

/-- Folding `parse_setting` over any name list appends, in list order, one
`from` fragment and one `to` fragment per name present in the table, and
records each mentioned name's resolved mode in the config map. -/
theorem compileSettings_ok (table : Table) :
    ∀ (names : List String) (st0 st : ParseState),
      compileSettings table names st0 = .ok st →
      st.fromStr = st0.fromStr ++ fragConcat (specFromFrag table) names ∧
      st.toStr = st0.toStr ++ fragConcat (specToFrag table) names ∧
      ∀ n : String, st.config.get n =
        (if n ∈ names ∧ (Table.get table n).isSome = true
         then (Table.get table n).bind valueMode
         else st0.config.get n) := by
  intro names
  induction names with
  | nil =>
    intro st0 st h
    simp only [compileSettings, Except.ok.injEq] at h
    subst h
    simp [fragConcat, String.append_empty]
  | cons m rest ih =>
    intro st0 st h
    simp only [compileSettings] at h
    rcases hp : parse_setting table m st0 with e | st1 <;> rw [hp] at h
    · exact absurd h (by simp)
    obtain ⟨h1, h2, h3⟩ := ih st1 st h
    rcases hg : Table.get table m with _ | v
    · -- feature absent: parse_setting is the identity
      have hst1 : st1 = st0 := by
        simp only [parse_setting, hg, Except.ok.injEq] at hp
        exact hp.symm
      subst hst1
      refine ⟨?_, ?_, ?_⟩
      · simpa [fragConcat, specFromFrag, hg, String.append_assoc] using h1
      · simpa [fragConcat, specToFrag, hg, String.append_assoc] using h2
      · intro n
        rw [h3 n]
        by_cases hnm : n = m
        · subst hnm
          simp [hg]
        · simp [List.mem_cons, hnm]
    · -- feature present: one fragment each, and the mode is recorded
      have hmode : ∃ md : PandocSetting, valueMode v = some md ∧
          st1 = { fromStr := st0.fromStr ++ "+" ++ m,
                  toStr := st0.toStr ++
                    ((if md = .Transpile then "-" else "+") ++ m),
                  config := st0.config.upsert m md } := by
        rcases v with s | _
        · by_cases hs1 : s = "transpile"
          · subst hs1
            refine ⟨.Transpile, by simp [valueMode, TomlValue.as_str], ?_⟩
            simp only [parse_setting, hg, TomlValue.as_str,
              Except.ok.injEq] at hp
            simp [← hp, String.append_assoc]
          · by_cases hs2 : s = "preserve"
            · subst hs2
              refine ⟨.Preserve, by simp [valueMode, TomlValue.as_str], ?_⟩
              simp only [parse_setting, hg, TomlValue.as_str,
                Except.ok.injEq] at hp
              simp [← hp, String.append_assoc]
            · exfalso
              simp only [parse_setting, hg, TomlValue.as_str, hs1, hs2] at hp
              exact absurd hp (by simp)
        · refine ⟨.Preserve, by simp [valueMode, TomlValue.as_str], ?_⟩
          simp only [parse_setting, hg, TomlValue.as_str,
            PandocSetting.default, Except.ok.injEq] at hp
          simp [← hp, String.append_assoc]
      obtain ⟨md, hmd, hst1⟩ := hmode
      subst hst1
      refine ⟨?_, ?_, ?_⟩
      · simpa [fragConcat, specFromFrag, hg, String.append_assoc] using h1
      · have hfrag : specToFrag table m = (if md = .Transpile then "-" else "+") ++ m := by
          rcases md with _ | _ <;>
            simp_all [specToFrag, hg]
        simp only [fragConcat, hfrag]
        simpa [String.append_assoc] using h2
      · intro n
        rw [h3 n]
        by_cases hnm : n = m
        · subst hnm
          by_cases hmem : n ∈ rest
          · simp [hmem, hg, hmd]
          · simp [hmem, hg, hmd, PandocConfig.get_upsert_self]
        · rw [PandocConfig.get_upsert_ne _ _ _ _ hnm]
          simp [List.mem_cons, hnm]

/-! ## Traversal lemmas -/

mutual
/-- The per-item conversion never reads the subprocess exit status. -/
theorem processItem_setStatus (o : Oracle) (f : List String → String → Int)
    (args : List String) :
    ∀ it : BookItem,
      processItem (setStatus o f) args it = processItem o args it
  | .Chapter c subs => by
    have ih := processItems_setStatus o f args subs
    simp only [processItem, setStatus, ih]
  | .Separator => by simp only [processItem]
  | .PartTitle t => by simp only [processItem]

/-- `processItem_setStatus` over a list of items. -/
theorem processItems_setStatus (o : Oracle) (f : List String → String → Int)
    (args : List String) :
    ∀ its : BookItems,
      processItems (setStatus o f) args its = processItems o args its
  | .nil => by simp only [processItems]
  | .cons it rest => by
    have ih1 := processItem_setStatus o f args it
    have ih2 := processItems_setStatus o f args rest
    simp only [processItems, ih1, ih2]
end

mutual
/-- Every converter call recorded while processing an item was made with
the fixed argument list. -/
theorem processItem_args (o : Oracle) (args : List String) :
    ∀ it : BookItem, ∀ c ∈ (processItem o args it).1, c.args = args
  | .Chapter content subs => by
    have ih := processItems_args o args subs
    intro c hc
    simp only [processItem] at hc
    split at hc
    · simp at hc
    · split at hc
      · simp at hc
        subst hc
        rfl
      · split at hc
        · simp at hc
          subst hc
          rfl
        · split at hc
          · simp at hc
            subst hc
            rfl
          · split at hc
            next heq =>
              simp only [List.mem_cons] at hc
              rcases hc with rfl | hc
              · rfl
              · exact ih c (by rw [heq]; exact hc)
            next heq =>
              simp only [List.mem_cons] at hc
              rcases hc with rfl | hc
              · rfl
              · exact ih c (by rw [heq]; exact hc)
  | .Separator => by intro c hc; simp [processItem] at hc
  | .PartTitle t => by intro c hc; simp [processItem] at hc

/-- `processItem_args` over a list of items. -/
theorem processItems_args (o : Oracle) (args : List String) :
    ∀ its : BookItems, ∀ c ∈ (processItems o args its).1, c.args = args
  | .nil => by intro c hc; simp [processItems] at hc
  | .cons it rest => by
    have ih1 := processItem_args o args it
    have ih2 := processItems_args o args rest
    intro c hc
    simp only [processItems] at hc
    split at hc
    next heq => exact ih1 c (by rw [heq]; exact hc)
    next heq =>
      split at hc
      next heq2 =>
        simp only [List.mem_append] at hc
        rcases hc with hc | hc
        · exact ih1 c (by rw [heq]; exact hc)
        · exact ih2 c (by rw [heq2]; exact hc)
      next heq2 =>
        simp only [List.mem_append] at hc
        rcases hc with hc | hc
        · exact ih1 c (by rw [heq]; exact hc)
        · exact ih2 c (by rw [heq2]; exact hc)
end

mutual
/-- A successfully processed item records one call per chapter (inputs in
depth-first order), and differs from the original only in chapter
contents. -/
theorem processItem_frame (o : Oracle) (args : List String) :
    ∀ it : BookItem, ∀ calls : List PandocCall, ∀ it' : BookItem,
      processItem o args it = (calls, .ok it') →
      calls.map PandocCall.input = chapterContentsItem it ∧
      calls.length = countChaptersItem it ∧
      stripItem it' = stripItem it ∧
      nonChaptersItem it' = nonChaptersItem it
  | .Chapter content subs => by
    have ih := processItems_frame o args subs
    intro calls it' h
    simp only [processItem] at h
    split at h
    · simp at h
    · split at h
      · simp at h
      · split at h
        · simp at h
        · split at h
          · simp at h
          · split at h
            next heq => simp at h
            next calls1 subs' heq =>
              obtain ⟨rfl, rfl⟩ : ⟨args, content⟩ :: calls1 = calls ∧
                  BookItem.Chapter (utf8Lossy (o args content).stdout) subs' = it' := by
                simpa [Prod.ext_iff] using h
              obtain ⟨ha, hb, hc, hd⟩ := ih calls1 subs' heq
              refine ⟨?_, ?_, ?_, ?_⟩
              · simpa [chapterContentsItem] using ha
              · simp [countChaptersItem, hb, Nat.add_comm]
              · simp [stripItem, hc]
              · simpa [nonChaptersItem] using hd
  | .Separator => by
    intro calls it' h
    simp only [processItem, Prod.mk.injEq, Except.ok.injEq] at h
    obtain ⟨rfl, rfl⟩ := h
    simp [chapterContentsItem, countChaptersItem, stripItem, nonChaptersItem]
  | .PartTitle t => by
    intro calls it' h
    simp only [processItem, Prod.mk.injEq, Except.ok.injEq] at h
    obtain ⟨rfl, rfl⟩ := h
    simp [chapterContentsItem, countChaptersItem, stripItem, nonChaptersItem]

/-- `processItem_frame` over a list of items. -/
theorem processItems_frame (o : Oracle) (args : List String) :
    ∀ its : BookItems, ∀ calls : List PandocCall, ∀ its' : BookItems,
      processItems o args its = (calls, .ok its') →
      calls.map PandocCall.input = chapterContentsList its ∧
      calls.length = countChaptersList its ∧
      stripList its' = stripList its ∧
      nonChaptersList its' = nonChaptersList its
  | .nil => by
    intro calls its' h
    simp only [processItems, Prod.mk.injEq, Except.ok.injEq] at h
    obtain ⟨rfl, rfl⟩ := h
    simp [chapterContentsList, countChaptersList, stripList, nonChaptersList]
  | .cons it rest => by
    have ih1 := processItem_frame o args it
    have ih2 := processItems_frame o args rest
    intro calls its' h
    simp only [processItems] at h
    split at h
    · simp at h
    next calls1 it1 heq =>
      split at h
      · simp at h
      next calls2 rest' heq2 =>
        obtain ⟨rfl, rfl⟩ : calls1 ++ calls2 = calls ∧
            BookItems.cons it1 rest' = its' := by
          simpa [Prod.ext_iff] using h
        obtain ⟨a1, b1, c1, d1⟩ := ih1 calls1 it1 heq
        obtain ⟨a2, b2, c2, d2⟩ := ih2 calls2 rest' heq2
        refine ⟨?_, ?_, ?_, ?_⟩
        · simp [chapterContentsList, a1, a2]
        · simp [countChaptersList, b1, b2]
        · simp [stripList, c1, c2]
        · simp [nonChaptersList, d1, d2]
end

/-- A chapter that was processed successfully has, as its new content,
exactly the lossy UTF-8 decoding of the bytes the subprocess wrote to its
standard output. -/
theorem processItem_chapter_content (o : Oracle) (args : List String)
    (content : String) (subs : BookItems) (calls : List PandocCall)
    (it' : BookItem)
    (h : processItem o args (.Chapter content subs) = (calls, .ok it')) :
    ∃ subs' : BookItems,
      it' = .Chapter (utf8Lossy (o args content).stdout) subs' := by
  simp only [processItem] at h
  split at h
  · simp at h
  · split at h
    · simp at h
    · split at h
      · simp at h
      · split at h
        · simp at h
        · split at h
          next heq => simp at h
          next calls1 subs' heq =>
            refine ⟨subs', ?_⟩
            have := h.symm
            simp only [Prod.mk.injEq, Except.ok.injEq] at this
            exact this.2.symm ▸ rfl

/-! ## Error-path lemmas -/

theorem parse_setting_error_of_invalid (table : Table) (n : String)
    (st : ParseState) (h : invalidAt table n) :
    parse_setting table n st =
      .error (n ++ " must be either \"transpile\" or \"preserve\"") := by
  obtain ⟨s, hget, hs1, hs2⟩ := h
  simp [parse_setting, hget, TomlValue.as_str, hs1, hs2]

theorem parse_setting_ok_of_not_invalid (table : Table) (n : String)
    (st : ParseState) (h : ¬ invalidAt table n) :
    ∃ st', parse_setting table n st = .ok st' := by
  rcases hget : Table.get table n with _ | v
  · exact ⟨st, by simp [parse_setting, hget]⟩
  rcases v with s | _
  · by_cases hs1 : s = "transpile"
    · subst hs1
      refine ⟨{ fromStr := st.fromStr ++ "+" ++ n,
                toStr := st.toStr ++ "-" ++ n,
                config := st.config.upsert n .Transpile }, ?_⟩
      simp [parse_setting, hget, TomlValue.as_str]
    · by_cases hs2 : s = "preserve"
      · subst hs2
        refine ⟨{ fromStr := st.fromStr ++ "+" ++ n,
                  toStr := st.toStr ++ "+" ++ n,
                  config := st.config.upsert n .Preserve }, ?_⟩
        simp [parse_setting, hget, TomlValue.as_str]
      · exact absurd ⟨s, hget, hs1, hs2⟩ h
  · refine ⟨{ fromStr := st.fromStr ++ "+" ++ n,
              toStr := st.toStr ++ "+" ++ n,
              config := st.config.upsert n PandocSetting.default }, ?_⟩
    simp [parse_setting, hget, TomlValue.as_str]

theorem compileSettings_error_of_invalid (table : Table) :
    ∀ (names : List String) (st : ParseState),
      (∃ n ∈ names, invalidAt table n) →
      ∃ n₀ ∈ names, invalidAt table n₀ ∧
        compileSettings table names st =
          .error (n₀ ++ " must be either \"transpile\" or \"preserve\"") := by
  intro names
  induction names with
  | nil =>
    rintro st ⟨n, hn, _⟩
    cases hn
  | cons m rest ih =>
    rintro st ⟨n, hn, hinv⟩
    by_cases hm : invalidAt table m
    · refine ⟨m, List.mem_cons_self m rest, hm, ?_⟩
      simp [compileSettings, parse_setting_error_of_invalid table m st hm]
    · obtain ⟨st', hok⟩ := parse_setting_ok_of_not_invalid table m st hm
      have hnrest : n ∈ rest := by
        rcases List.mem_cons.mp hn with rfl | h
        · exact absurd hinv hm
        · exact h
      obtain ⟨n₀, hmem, hinv₀, herr⟩ := ih st' ⟨n, hnrest, hinv⟩
      exact ⟨n₀, List.mem_cons_of_mem m hmem, hinv₀,
        by simp [compileSettings, hok, herr]⟩

/-! ## Claim theorems -/

/-- Claim C6: a feature name present in the config with a string value other
than `"transpile"` or `"preserve"` makes the run abort with a fatal
configuration error whose message names an offending feature and the two
accepted values, before any converter invocation. -/
theorem invalid_feature_value_aborts_run (table : Table) (book : Book)
    (oracle : Oracle) (n : String) (hn : n ∈ featureNames)
    (hinv : invalidAt table n) :
    ∃ n₀ ∈ featureNames, invalidAt table n₀ ∧
      Pandoc.run (some table) book oracle =
        .panicked (n₀ ++ " must be either \"transpile\" or \"preserve\"") [] := by
  obtain ⟨n₀, hmem, hinv₀, herr⟩ :=
    compileSettings_error_of_invalid table featureNames initState ⟨n, hn, hinv⟩
  exact ⟨n₀, hmem, hinv₀, by simp [Pandoc.run, herr]⟩

/-- Witness for C6: configuring `mark = "bogus"` aborts the run with the
error naming `mark` and the two accepted values. -/
theorem invalid_feature_value_aborts_run_witness :
    ∃ n₀ ∈ featureNames, invalidAt [("mark", TomlValue.str "bogus")] n₀ ∧
      Pandoc.run (some [("mark", TomlValue.str "bogus")]) ⟨.nil⟩
          (fun _ _ => ⟨true, true, true, true, 0, []⟩) =
        .panicked (n₀ ++ " must be either \"transpile\" or \"preserve\"") [] :=
  invalid_feature_value_aborts_run [("mark", TomlValue.str "bogus")] ⟨.nil⟩
    (fun _ _ => ⟨true, true, true, true, 0, []⟩) "mark" (by decide)
    ⟨"bogus", by decide, by decide, by decide⟩

/-- Claim C8: when the host configuration has no config table for this
preprocessor, the run panics with the "no config table" message before any
converter invocation. -/
theorem missing_config_table_panics (book : Book) (oracle : Oracle) :
    Pandoc.run none book oracle =
      .panicked "No config table for citeproc preprocessor" [] := rfl

/-- Claim C9: the `supports <renderer>` subcommand exits with code 1 exactly
for the literal renderer name `"not-supported"`, and 0 for every other. -/
theorem supports_exit_codes (renderer : String) :
    handle_supports_exit renderer =
      if renderer = "not-supported" then 1 else 0 := by
  by_cases h : renderer = "not-supported" <;>
    simp [handle_supports_exit, supports_renderer, h]

/-- Claim C10: `Pandoc::run` never returns an error value — every outcome is
either a panic (process abort) or `Ok` with the processed book. -/
theorem run_never_returns_error (tableOpt : Option Table) (book : Book)
    (oracle : Oracle) :
    (∃ msg calls, Pandoc.run tableOpt book oracle = .panicked msg calls) ∨
    (∃ book' calls,
      Pandoc.run tableOpt book oracle = .returned (.ok book') calls) := by
  rcases tableOpt with _ | table
  · exact .inl ⟨_, _, rfl⟩
  rcases h1 : compileSettings table featureNames initState with e | st
  · exact .inl ⟨e, [], by simp [Pandoc.run, h1]⟩
  rcases h2 : bibGate table st.config with e | bib
  · exact .inl ⟨e, [], by simp [Pandoc.run, h1, h2]⟩
  rcases h3 : processItems oracle (pandocArgs st.fromStr st.toStr bib)
      book.sections with ⟨calls, res⟩
  rcases res with e | secs
  · exact .inl ⟨e, calls, by simp [Pandoc.run, h1, h2, h3]⟩
  · exact .inr ⟨⟨secs⟩, calls, by simp [Pandoc.run, h1, h2, h3]⟩

/-- Claim C2: exactly when `"citations"` resolves to Transpile, the adapter
requires both bibliography keys as strings in the raw config — panicking
with the message naming both required keys when one is missing, and
otherwise producing a `BibliographyConfig` holding the two input strings
verbatim; when citations resolves to Preserve or is unmentioned, no
`BibliographyConfig` is produced regardless of the bibliography keys. -/
theorem bibliography_gate_requires_pair_iff_transpile (table : Table)
    (config : PandocConfig) :
    (config.get "citations" = some .Transpile →
      (∀ bib style : String,
        (Table.get table "bibliography").bind TomlValue.as_str = some bib →
        (Table.get table "bibliography-style").bind TomlValue.as_str =
          some style →
        bibGate table config = .ok (some (BibliographyConfig.new bib style))) ∧
      ((Table.get table "bibliography").bind TomlValue.as_str = none ∨
       (Table.get table "bibliography-style").bind TomlValue.as_str = none →
        bibGate table config =
          .error "citations set to transpile so bibliography-style and bibliography option must be provided!")) ∧
    (config.get "citations" ≠ some .Transpile →
      bibGate table config = .ok none) := by
  refine ⟨fun hcit => ⟨?_, ?_⟩, fun hne => ?_⟩
  · intro bib style hb hs
    simp [bibGate, hcit, hb, hs]
  · intro hmiss
    rcases hstyle : (Table.get table "bibliography-style").bind TomlValue.as_str
      with _ | s
    · simp [bibGate, hcit, hstyle]
    rcases hbib : (Table.get table "bibliography").bind TomlValue.as_str
      with _ | b
    · simp [bibGate, hcit, hstyle, hbib]
    · rcases hmiss with h | h
      · exact absurd hbib (by simp [h])
      · exact absurd hstyle (by simp [h])
  · rcases hc : config.get "citations" with _ | md
    · simp [bibGate, hc]
    · rcases md with _ | _
      · simp [bibGate, hc]
      · exact absurd hc hne

/-- Witness for C2: with citations transpiled, both keys present give the
verbatim pair; a missing key panics; preserve mode ignores present keys. -/
theorem bibliography_gate_requires_pair_iff_transpile_witness :
    bibGate [("bibliography", TomlValue.str "refs.bib"),
             ("bibliography-style", TomlValue.str "apa.csl")]
        [("citations", PandocSetting.Transpile)] =
      .ok (some (BibliographyConfig.new "refs.bib" "apa.csl")) ∧
    bibGate [("bibliography", TomlValue.str "refs.bib")]
        [("citations", PandocSetting.Transpile)] =
      .error "citations set to transpile so bibliography-style and bibliography option must be provided!" ∧
    bibGate [("bibliography", TomlValue.str "refs.bib"),
             ("bibliography-style", TomlValue.str "apa.csl")]
        [("citations", PandocSetting.Preserve)] = .ok none :=
  ⟨((bibliography_gate_requires_pair_iff_transpile
      [("bibliography", TomlValue.str "refs.bib"),
       ("bibliography-style", TomlValue.str "apa.csl")]
      [("citations", PandocSetting.Transpile)]).1 (by rfl)).1
      "refs.bib" "apa.csl" (by rfl) (by rfl),
   ((bibliography_gate_requires_pair_iff_transpile
      [("bibliography", TomlValue.str "refs.bib")]
      [("citations", PandocSetting.Transpile)]).1 (by rfl)).2
      (Or.inr (by rfl)),
   (bibliography_gate_requires_pair_iff_transpile
      [("bibliography", TomlValue.str "refs.bib"),
       ("bibliography-style", TomlValue.str "apa.csl")]
      [("citations", PandocSetting.Preserve)]).2 (by decide)⟩

/-- Claim C5 counterexample: the claim says a feature whose present value is
the empty string resolves to Preserve without error, but the code rejects
the empty string like any other unrecognised string value. -/
theorem empty_string_value_errors :
    parse_setting [("emoji", TomlValue.str "")] "emoji" initState =
      .error "emoji must be either \"transpile\" or \"preserve\"" := rfl

/-- Claim C5 (amended): a feature name present in the config with the string
value `"preserve"`, or with a non-string value, resolves to Preserve (the
default) with no configuration error; an empty-string value, being a string
other than the two accepted ones, is instead rejected. -/
theorem preserve_default_for_preserve_or_nonstring (table : Table)
    (n : String) (st : ParseState) (v : TomlValue)
    (hget : Table.get table n = some v)
    (hv : v = .str "preserve" ∨ v.as_str = none) :
    ∃ st', parse_setting table n st = .ok st' ∧
      st'.config.get n = some .Preserve := by
  rcases hv with rfl | hv
  · refine ⟨{ fromStr := st.fromStr ++ "+" ++ n,
              toStr := st.toStr ++ "+" ++ n,
              config := st.config.upsert n .Preserve }, ?_, ?_⟩
    · simp [parse_setting, hget, TomlValue.as_str]
    · simp [PandocConfig.get_upsert_self]
  · rcases v with s | _
    · simp [TomlValue.as_str] at hv
    · refine ⟨{ fromStr := st.fromStr ++ "+" ++ n,
                toStr := st.toStr ++ "+" ++ n,
                config := st.config.upsert n PandocSetting.default }, ?_, ?_⟩
      · simp [parse_setting, hget, TomlValue.as_str]
      · simp [PandocSetting.default, PandocConfig.get_upsert_self]

/-- Witness for C5 (amended): a non-string value for `mark` resolves to
Preserve without error. -/
theorem preserve_default_for_preserve_or_nonstring_witness :
    ∃ st', parse_setting [("mark", TomlValue.nonStr)] "mark" initState =
        .ok st' ∧ st'.config.get "mark" = some .Preserve :=
  preserve_default_for_preserve_or_nonstring [("mark", TomlValue.nonStr)]
    "mark" initState TomlValue.nonStr (by rfl) (Or.inr (by rfl))

/-- Claim C1: when settings compilation succeeds, the compiled `from` string
is the base `--from=markdown_strict` followed by one `+<name>` fragment per
feature name present in the config — in the fixed enumeration order and
regardless of mode — and the compiled `to` string is the base
`--to=markdown_strict` followed, in the same order, by `+<name>` for
features whose resolved mode is Preserve and `-<name>` for Transpile;
absent feature names contribute no fragment, and each mentioned feature's
resolved mode is the one recorded in the config map. -/
theorem compiled_flags_follow_enumeration (table : Table) (st : ParseState)
    (h : compileSettings table featureNames initState = .ok st) :
    st.fromStr = "--from=markdown_strict" ++
      fragConcat (specFromFrag table) featureNames ∧
    st.toStr = "--to=markdown_strict" ++
      fragConcat (specToFrag table) featureNames ∧
    ∀ n ∈ featureNames, (Table.get table n).isSome = true →
      st.config.get n = (Table.get table n).bind valueMode := by
  obtain ⟨h1, h2, h3⟩ := compileSettings_ok table featureNames initState st h
  refine ⟨by simpa [initState] using h1, by simpa [initState] using h2, ?_⟩
  intro n hn hsome
  rw [h3 n]
  simp [hn, hsome]

/-- Witness for C1: `citations = "transpile"`, `emoji = "preserve"` and a
non-string `footnotes` value compile to fragments in enumeration order. -/
theorem compiled_flags_follow_enumeration_witness :
    "--from=markdown_strict+citations+emoji+footnotes" =
      "--from=markdown_strict" ++
        fragConcat (specFromFrag
          [("citations", TomlValue.str "transpile"),
           ("emoji", TomlValue.str "preserve"),
           ("footnotes", TomlValue.nonStr)]) featureNames ∧
    "--to=markdown_strict-citations+emoji+footnotes" =
      "--to=markdown_strict" ++
        fragConcat (specToFrag
          [("citations", TomlValue.str "transpile"),
           ("emoji", TomlValue.str "preserve"),
           ("footnotes", TomlValue.nonStr)]) featureNames ∧
    ∀ n ∈ featureNames,
      (Table.get [("citations", TomlValue.str "transpile"),
                  ("emoji", TomlValue.str "preserve"),
                  ("footnotes", TomlValue.nonStr)] n).isSome = true →
      PandocConfig.get [("citations", .Transpile), ("emoji", .Preserve),
          ("footnotes", .Preserve)] n =
        (Table.get [("citations", TomlValue.str "transpile"),
                    ("emoji", TomlValue.str "preserve"),
                    ("footnotes", TomlValue.nonStr)] n).bind valueMode :=
  compiled_flags_follow_enumeration
    [("citations", TomlValue.str "transpile"),
     ("emoji", TomlValue.str "preserve"),
     ("footnotes", TomlValue.nonStr)]
    { fromStr := "--from=markdown_strict+citations+emoji+footnotes",
      toStr := "--to=markdown_strict-citations+emoji+footnotes",
      config := [("citations", .Transpile), ("emoji", .Preserve),
                 ("footnotes", .Preserve)] }
    (by rfl)

/-- Claim C3: every converter invocation of a run is made with the argument
list `from`-flag, `to`-flag followed — exactly when a `BibliographyConfig`
is present — by `--csl=<style>`, `--bibliography=<path>`,
`--metadata=link-citations`, `--metadata=link-bibliography`, `--citeproc`,
in that order, and by nothing else otherwise. -/
theorem converter_args_per_chapter (table : Table) (book : Book)
    (oracle : Oracle) (st : ParseState) (bib : Option BibliographyConfig)
    (h1 : compileSettings table featureNames initState = .ok st)
    (h2 : bibGate table st.config = .ok bib) :
    ∀ c ∈ runCalls (Pandoc.run (some table) book oracle),
      c.args = [st.fromStr, st.toStr] ++
        (match bib with
         | some b =>
           ["--csl=" ++ b.bibliography_style,
            "--bibliography=" ++ b.bibliography,
            "--metadata=link-citations", "--metadata=link-bibliography",
            "--citeproc"]
         | none => []) := by
  intro c hc
  have hargs : c.args = pandocArgs st.fromStr st.toStr bib := by
    rcases h3 : processItems oracle (pandocArgs st.fromStr st.toStr bib)
        book.sections with ⟨calls, res⟩
    have hrc : runCalls (Pandoc.run (some table) book oracle) = calls := by
      rcases res with e | secs <;> simp [Pandoc.run, h1, h2, h3, runCalls]
    rw [hrc] at hc
    exact processItems_args oracle (pandocArgs st.fromStr st.toStr bib)
      book.sections c (by rw [h3]; exact hc)
  rw [hargs]
  cases bib <;> rfl

/-- Witness for C3: the single invocation of a transpiled-citations run uses
the two flag strings followed by the five citation arguments. -/
theorem converter_args_per_chapter_witness :
    (⟨["--from=markdown_strict+citations", "--to=markdown_strict-citations",
       "--csl=apa.csl", "--bibliography=refs.bib",
       "--metadata=link-citations", "--metadata=link-bibliography",
       "--citeproc"], "See @smith2020."⟩ : PandocCall).args =
      ["--from=markdown_strict+citations",
       "--to=markdown_strict-citations"] ++
        (match some (BibliographyConfig.new "refs.bib" "apa.csl") with
         | some b =>
           ["--csl=" ++ b.bibliography_style,
            "--bibliography=" ++ b.bibliography,
            "--metadata=link-citations", "--metadata=link-bibliography",
            "--citeproc"]
         | none => []) :=
  converter_args_per_chapter
    [("citations", TomlValue.str "transpile"),
     ("bibliography", TomlValue.str "refs.bib"),
     ("bibliography-style", TomlValue.str "apa.csl")]
    ⟨.cons (.Chapter "See @smith2020." .nil) .nil⟩
    (fun _ _ => ⟨true, true, true, true, 0, [65]⟩)
    { fromStr := "--from=markdown_strict+citations",
      toStr := "--to=markdown_strict-citations",
      config := [("citations", .Transpile)] }
    (some (BibliographyConfig.new "refs.bib" "apa.csl"))
    (by rfl) (by rfl)
    ⟨["--from=markdown_strict+citations", "--to=markdown_strict-citations",
      "--csl=apa.csl", "--bibliography=refs.bib",
      "--metadata=link-citations", "--metadata=link-bibliography",
      "--citeproc"], "See @smith2020."⟩
    (by decide)

/-- Claim C4: a run that returns its book invoked the converter exactly once
per chapter — the recorded inputs are the chapter contents in depth-first
order — replaced only chapter contents, and left tree structure, node
ordering and every non-chapter node unchanged. -/
theorem one_invocation_per_chapter_frame (table : Table) (book book' : Book)
    (oracle : Oracle) (calls : List PandocCall)
    (h : Pandoc.run (some table) book oracle = .returned (.ok book') calls) :
    calls.map PandocCall.input = chapterContentsList book.sections ∧
    calls.length = countChaptersList book.sections ∧
    stripList book'.sections = stripList book.sections ∧
    nonChaptersList book'.sections = nonChaptersList book.sections := by
  rcases h1 : compileSettings table featureNames initState with e | st
  · simp [Pandoc.run, h1] at h
  rcases h2 : bibGate table st.config with e | bib
  · simp [Pandoc.run, h1, h2] at h
  rcases h3 : processItems oracle (pandocArgs st.fromStr st.toStr bib)
      book.sections with ⟨calls0, res⟩
  rcases res with e | secs
  · simp [Pandoc.run, h1, h2, h3] at h
  · have hframe := processItems_frame oracle
      (pandocArgs st.fromStr st.toStr bib) book.sections calls0 secs h3
    simp only [Pandoc.run, h1, h2, h3, RunOutcome.returned.injEq,
      Except.ok.injEq] at h
    obtain ⟨hbook, hcalls⟩ := h
    subst hcalls
    rw [← hbook]
    exact hframe

/-- Witness for C4: a two-chapter nested book with a separator and a part
title is converted with exactly two invocations, inputs in depth-first
order, and its non-chapter nodes intact. -/
theorem one_invocation_per_chapter_frame_witness :
    ([⟨["--from=markdown_strict", "--to=markdown_strict"], "a"⟩,
      ⟨["--from=markdown_strict", "--to=markdown_strict"], "b"⟩] :
        List PandocCall).map PandocCall.input =
      chapterContentsList (Book.mk (.cons
        (.Chapter "a" (.cons (.Chapter "b" .nil) (.cons .Separator .nil)))
        (.cons (.PartTitle "T") .nil))).sections ∧
    ([⟨["--from=markdown_strict", "--to=markdown_strict"], "a"⟩,
      ⟨["--from=markdown_strict", "--to=markdown_strict"], "b"⟩] :
        List PandocCall).length =
      countChaptersList (Book.mk (.cons
        (.Chapter "a" (.cons (.Chapter "b" .nil) (.cons .Separator .nil)))
        (.cons (.PartTitle "T") .nil))).sections ∧
    stripList (Book.mk (.cons
        (.Chapter "H" (.cons (.Chapter "H" .nil) (.cons .Separator .nil)))
        (.cons (.PartTitle "T") .nil))).sections =
      stripList (Book.mk (.cons
        (.Chapter "a" (.cons (.Chapter "b" .nil) (.cons .Separator .nil)))
        (.cons (.PartTitle "T") .nil))).sections ∧
    nonChaptersList (Book.mk (.cons
        (.Chapter "H" (.cons (.Chapter "H" .nil) (.cons .Separator .nil)))
        (.cons (.PartTitle "T") .nil))).sections =
      nonChaptersList (Book.mk (.cons
        (.Chapter "a" (.cons (.Chapter "b" .nil) (.cons .Separator .nil)))
        (.cons (.PartTitle "T") .nil))).sections :=
  one_invocation_per_chapter_frame []
    (Book.mk (.cons
      (.Chapter "a" (.cons (.Chapter "b" .nil) (.cons .Separator .nil)))
      (.cons (.PartTitle "T") .nil)))
    (Book.mk (.cons
      (.Chapter "H" (.cons (.Chapter "H" .nil) (.cons .Separator .nil)))
      (.cons (.PartTitle "T") .nil)))
    (fun _ _ => ⟨true, true, true, true, 0, [72]⟩)
    [⟨["--from=markdown_strict", "--to=markdown_strict"], "a"⟩,
     ⟨["--from=markdown_strict", "--to=markdown_strict"], "b"⟩]
    (by rfl)

/-- Claim C7: a successfully converted chapter's new content is exactly the
lossy UTF-8 decoding of the bytes the subprocess wrote to standard output,
and the whole run outcome is independent of the subprocess exit statuses —
a nonzero status is not itself treated as fatal. -/
theorem chapter_content_is_lossy_stdout_status_ignored
    (tableOpt : Option Table) (book : Book) (o : Oracle)
    (f : List String → String → Int) (args : List String) (content : String)
    (subs : BookItems) (calls : List PandocCall) (it' : BookItem)
    (h : processItem o args (.Chapter content subs) = (calls, .ok it')) :
    Pandoc.run tableOpt book (setStatus o f) = Pandoc.run tableOpt book o ∧
    ∃ subs' : BookItems,
      it' = .Chapter (utf8Lossy (o args content).stdout) subs' := by
  refine ⟨?_, processItem_chapter_content o args content subs calls it' h⟩
  rcases tableOpt with _ | table
  · rfl
  rcases h1 : compileSettings table featureNames initState with e | st
  · simp [Pandoc.run, h1]
  rcases h2 : bibGate table st.config with e | bib
  · simp [Pandoc.run, h1, h2]
  simp [Pandoc.run, h1, h2, processItems_setStatus]

/-- Witness for C7: a subprocess exiting with status 1 and writing the
invalid byte `0xFF` followed by `A` yields the replacement character
followed by `A`, and overriding the status to 0 leaves the run outcome
unchanged. -/
theorem chapter_content_is_lossy_stdout_status_ignored_witness :
    Pandoc.run none ⟨.nil⟩
        (setStatus (fun _ _ => ⟨true, true, true, true, 1, [255, 65]⟩)
          (fun _ _ => 0)) =
      Pandoc.run none ⟨.nil⟩
        (fun _ _ => ⟨true, true, true, true, 1, [255, 65]⟩) ∧
    ∃ subs' : BookItems,
      BookItem.Chapter (String.mk [replChar, 'A']) .nil =
        .Chapter (utf8Lossy
          ((fun (_ : List String) (_ : String) =>
            (⟨true, true, true, true, 1, [255, 65]⟩ : SpawnResult)) [] "x").stdout)
          subs' :=
  chapter_content_is_lossy_stdout_status_ignored none ⟨.nil⟩
    (fun _ _ => ⟨true, true, true, true, 1, [255, 65]⟩) (fun _ _ => 0)
    [] "x" .nil [⟨[], "x"⟩] (.Chapter (String.mk [replChar, 'A']) .nil)
    (by rfl)
